import Mathlib

/-!
Verification of the UUIDv7 backfill script
`scripts/migrate_public_ids_to_uuidv7.py` of the eigen-models repository.

Shallow embedding conventions:
* A Python `datetime` with microsecond precision is modelled as a `Nat`
  counting microseconds since the Unix epoch (claims restrict attention to
  timestamps at or after the epoch).  `int(dt.timestamp() * 1000)` is
  modelled as exact integer division by 1000 (truncation of the
  sub-millisecond part, as in the source for non-negative instants).
* Python `bytes` values are `List Nat` with every element below 256.
* `int.to_bytes(n, 'big')` raises `OverflowError` when the value does not
  fit; this is modelled by `Option`, `none` standing for the raised error.
* The ten bytes drawn by `secrets.token_bytes(10)` are passed explicitly,
  so every theorem quantifies over the random draw.
* The database rows, the cursor and the transaction of the batch driver
  are modelled by explicit state passing: updates are buffered against a
  working copy, `commit` publishes it, an exception rolls back to the
  original store and is re-raised (recorded in a `raised` flag).
-/

/-- Big-endian base-256 digits of `n`, exactly `len` bytes (the content of a
successful Python `n.to_bytes(len, 'big')`). -/
def natDigitsBE : Nat → Nat → List Nat
  | _, 0 => []
  | n, len + 1 => natDigitsBE (n / 256) len ++ [n % 256]

/-- Model of Python `n.to_bytes(len, 'big')`: `none` models the
`OverflowError` raised when `n` does not fit in `len` bytes. -/
def toBytesBE (n len : Nat) : Option (List Nat) :=
  if n < 256 ^ len then some (natDigitsBE n len) else none

/-- Model of Python `int.from_bytes(bs, 'big')`. -/
def fromBytesBE (bs : List Nat) : Nat :=
  bs.foldl (fun acc b => acc * 256 + b) 0

/-- The masked-and-OR'd 16-bit field of the source:
`rand_a = (int.from_bytes(rand_bytes[0:2], 'big') & 0x0FFF) | 0x7000`. -/
def randA (rand_bytes : List Nat) : Nat :=
  (fromBytesBE (rand_bytes.take 2) &&& 0x0FFF) ||| 0x7000

/-- The masked-and-OR'd 64-bit field of the source:
`rand_b = (int.from_bytes(rand_bytes[2:10], 'big') & 0x3FFFFFFFFFFFFFFF) | 0x8000000000000000`. -/
def randB (rand_bytes : List Nat) : Nat :=
  (fromBytesBE ((rand_bytes.drop 2).take 8) &&& 0x3FFFFFFFFFFFFFFF) |||
    0x8000000000000000

/-- Embedding of `timestamp_to_uuidv7(dt, counter)` from
`scripts/migrate_public_ids_to_uuidv7.py` (lines 37-74).  `dtUs` is the
datetime as microseconds since the epoch, `rand_bytes` the ten bytes drawn
by `secrets.token_bytes(10)`.  The result is the list of the sixteen UUID
bytes; `none` models a raised `OverflowError`. -/
def timestamp_to_uuidv7 (dtUs : Nat) (counter : Nat) (rand_bytes : List Nat) :
    Option (List Nat) :=
  let timestamp_ms := dtUs / 1000 + counter % 1000
  match toBytesBE timestamp_ms 6 with
  | none => none
  | some ts_bytes =>
    match toBytesBE (randA rand_bytes) 2 with
    | none => none
    | some a_bytes =>
      match toBytesBE (randB rand_bytes) 8 with
      | none => none
      | some b_bytes => some (ts_bytes ++ a_bytes ++ b_bytes)

/-- Byte-wise (lexicographic) strict comparison of byte strings, as Python
compares `bytes` values. -/
def bytesLt : List Nat → List Nat → Bool
  | [], [] => false
  | [], _ :: _ => true
  | _ :: _, [] => false
  | x :: xs, y :: ys => decide (x < y) || (decide (x = y) && bytesLt xs ys)

/-- Version field of a 16-byte UUID: the high nibble of byte 6
(bits 48-51 of the big-endian 128-bit value). -/
def uuidVersion (u : List Nat) : Nat := u.getD 6 0 / 16

/-- Variant field of a 16-byte UUID: the top two bits of byte 8
(bits 64-65 of the big-endian 128-bit value). -/
def uuidVariant (u : List Nat) : Nat := u.getD 8 0 / 64

theorem natDigitsBE_length (n len : Nat) : (natDigitsBE n len).length = len := by
  induction len generalizing n with
  | zero => rfl
  | succ k ih => simp [natDigitsBE, ih]

theorem natDigitsBE_lt (n len : Nat) : ∀ b ∈ natDigitsBE n len, b < 256 := by
  induction len generalizing n with
  | zero => simp [natDigitsBE]
  | succ k ih =>
    intro b hb
    simp only [natDigitsBE, List.mem_append, List.mem_singleton] at hb
    rcases hb with hb | hb
    · exact ih _ b hb
    · subst hb; exact Nat.mod_lt _ (by norm_num)

theorem fromBytesBE_acc (bs : List Nat) (acc : Nat) :
    bs.foldl (fun a b => a * 256 + b) acc =
      acc * 256 ^ bs.length + fromBytesBE bs := by
  induction bs generalizing acc with
  | nil => simp [fromBytesBE]
  | cons x xs ih =>
    simp only [List.foldl_cons, List.length_cons, fromBytesBE]
    rw [ih (acc * 256 + x), Nat.zero_mul, Nat.zero_add, ih x]
    ring

theorem fromBytesBE_cons (x : Nat) (xs : List Nat) :
    fromBytesBE (x :: xs) = x * 256 ^ xs.length + fromBytesBE xs := by
  have h := fromBytesBE_acc xs x
  simpa [fromBytesBE] using h

theorem fromBytesBE_append (xs ys : List Nat) :
    fromBytesBE (xs ++ ys) =
      fromBytesBE xs * 256 ^ ys.length + fromBytesBE ys := by
  simp only [fromBytesBE, List.foldl_append]
  exact fromBytesBE_acc ys _

theorem fromBytesBE_lt (bs : List Nat) (h : ∀ b ∈ bs, b < 256) :
    fromBytesBE bs < 256 ^ bs.length := by
  induction bs with
  | nil => simp [fromBytesBE]
  | cons x xs ih =>
    rw [fromBytesBE_cons]
    have hx : x < 256 := h x (by simp)
    have hxs : fromBytesBE xs < 256 ^ xs.length :=
      ih fun b hb => h b (by simp [hb])
    have : x * 256 ^ xs.length + fromBytesBE xs <
        (x + 1) * 256 ^ xs.length := by
      rw [Nat.succ_mul]; omega
    calc x * 256 ^ xs.length + fromBytesBE xs
        < (x + 1) * 256 ^ xs.length := this
      _ ≤ 256 * 256 ^ xs.length := Nat.mul_le_mul_right _ (by omega)
      _ = 256 ^ (x :: xs).length := by rw [List.length_cons]; ring

theorem fromBytesBE_natDigitsBE (n len : Nat) (h : n < 256 ^ len) :
    fromBytesBE (natDigitsBE n len) = n := by
  induction len generalizing n with
  | zero =>
    simp only [Nat.pow_zero, Nat.lt_one_iff] at h
    simp [natDigitsBE, fromBytesBE, h]
  | succ k ih =>
    have hdiv : n / 256 < 256 ^ k := by
      rw [Nat.div_lt_iff_lt_mul (by norm_num : 0 < 256)]
      calc n < 256 ^ (k + 1) := h
        _ = 256 ^ k * 256 := by ring
    simp only [natDigitsBE, fromBytesBE_append, natDigitsBE_length]
    rw [ih _ hdiv]
    simp [fromBytesBE]
    omega

theorem randA_eq (r : List Nat) :
    randA r = 28672 + fromBytesBE (r.take 2) % 4096 := by
  unfold randA
  rw [show (0x0FFF : Nat) = 2 ^ 12 - 1 by norm_num,
    Nat.and_pow_two_sub_one_eq_mod, Nat.or_comm,
    show (0x7000 : Nat) = 2 ^ 12 * 7 by norm_num,
    ← Nat.mul_add_lt_is_or (Nat.mod_lt _ (by norm_num)) 7]

theorem randB_eq (r : List Nat) :
    randB r = 9223372036854775808 +
      fromBytesBE ((r.drop 2).take 8) % 4611686018427387904 := by
  unfold randB
  rw [show (0x3FFFFFFFFFFFFFFF : Nat) = 2 ^ 62 - 1 by norm_num,
    Nat.and_pow_two_sub_one_eq_mod, Nat.or_comm,
    show (0x8000000000000000 : Nat) = 2 ^ 63 * 1 by norm_num,
    ← Nat.mul_add_lt_is_or
      (Nat.lt_of_lt_of_le (Nat.mod_lt _ (by norm_num)) (by norm_num)) 1]

theorem randA_lt (r : List Nat) : randA r < 65536 := by
  have h := randA_eq r
  have : fromBytesBE (r.take 2) % 4096 < 4096 := Nat.mod_lt _ (by norm_num)
  omega

theorem randB_lt (r : List Nat) : randB r < 18446744073709551616 := by
  have h := randB_eq r
  have : fromBytesBE ((r.drop 2).take 8) % 4611686018427387904 <
      4611686018427387904 := Nat.mod_lt _ (by norm_num)
  omega

/-- With an in-range adjusted millisecond value, the generator returns the
sixteen bytes: six timestamp bytes, two version-plus-random bytes, eight
variant-plus-random bytes. -/
theorem timestamp_to_uuidv7_eq (dtUs counter : Nat) (r : List Nat)
    (h : dtUs / 1000 + counter % 1000 < 2 ^ 48) :
    timestamp_to_uuidv7 dtUs counter r =
      some (natDigitsBE (dtUs / 1000 + counter % 1000) 6 ++
        natDigitsBE (randA r) 2 ++ natDigitsBE (randB r) 8) := by
  unfold timestamp_to_uuidv7 toBytesBE
  have h6 : dtUs / 1000 + counter % 1000 < 281474976710656 := by
    have h48 : (2 : Nat) ^ 48 = 281474976710656 := by norm_num
    omega
  simp [h6, randA_lt r, randB_lt r, List.append_assoc]

theorem timestamp_to_uuidv7_none (dtUs counter : Nat) (r : List Nat)
    (h : ¬ dtUs / 1000 + counter % 1000 < 2 ^ 48) :
    timestamp_to_uuidv7 dtUs counter r = none := by
  unfold timestamp_to_uuidv7 toBytesBE
  have h6 : ¬ dtUs / 1000 + counter % 1000 < 281474976710656 := by
    have h48 : (2 : Nat) ^ 48 = 281474976710656 := by norm_num
    omega
  simp [h6]

theorem timestamp_to_uuidv7_isSome_iff (dtUs counter : Nat) (r : List Nat) :
    (timestamp_to_uuidv7 dtUs counter r).isSome = true ↔
      dtUs / 1000 + counter % 1000 < 2 ^ 48 := by
  by_cases h : dtUs / 1000 + counter % 1000 < 2 ^ 48
  · rw [timestamp_to_uuidv7_eq dtUs counter r h]
    simpa using h
  · rw [timestamp_to_uuidv7_none dtUs counter r h]
    simpa using h

theorem bytesLt_append_same (p xs ys : List Nat) :
    bytesLt (p ++ xs) (p ++ ys) = bytesLt xs ys := by
  induction p with
  | nil => rfl
  | cons a p ih => simp [bytesLt, ih]

/-- Positional comparison of one big-endian digit: with remainders below the
weight, the weighted sum comparison is the head-then-tail comparison. -/
theorem lex_digit_lt (x y K r s : Nat) (hr : r < K) (hs : s < K) :
    x * K + r < y * K + s ↔ x < y ∨ (x = y ∧ r < s) := by
  constructor
  · intro h
    rcases Nat.lt_trichotomy x y with h1 | h1 | h1
    · exact Or.inl h1
    · exact Or.inr ⟨h1, by subst h1; omega⟩
    · exfalso
      have hm : (y + 1) * K ≤ x * K := Nat.mul_le_mul_right K (by omega)
      have hy1 : y * K + s < (y + 1) * K := by rw [Nat.succ_mul]; omega
      omega
  · rintro (h | ⟨rfl, h⟩)
    · have hm : (x + 1) * K ≤ y * K := Nat.mul_le_mul_right K (by omega)
      have hx1 : x * K + r < (x + 1) * K := by rw [Nat.succ_mul]; omega
      omega
    · omega

/-- On equal-length byte strings, byte-wise lexicographic comparison is
numeric comparison of the big-endian values. -/
theorem bytesLt_iff_fromBytesBE (xs : List Nat) :
    ∀ ys : List Nat, xs.length = ys.length → (∀ b ∈ xs, b < 256) →
      (∀ b ∈ ys, b < 256) →
      (bytesLt xs ys = true ↔ fromBytesBE xs < fromBytesBE ys) := by
  induction xs with
  | nil =>
    intro ys hlen _ _
    cases ys with
    | nil => simp [bytesLt, fromBytesBE]
    | cons y ys => simp at hlen
  | cons x xs ih =>
    intro ys hlen hx hy
    cases ys with
    | nil => simp at hlen
    | cons y ys =>
      simp only [List.length_cons, Nat.succ.injEq] at hlen
      rw [fromBytesBE_cons, fromBytesBE_cons, ← hlen]
      have hxs : fromBytesBE xs < 256 ^ xs.length :=
        fromBytesBE_lt xs fun b hb => hx b (by simp [hb])
      have hys : fromBytesBE ys < 256 ^ xs.length := by
        rw [hlen]
        exact fromBytesBE_lt ys fun b hb => hy b (by simp [hb])
      rw [lex_digit_lt _ _ _ _ _ hxs hys]
      simp only [bytesLt, Bool.or_eq_true, Bool.and_eq_true, decide_eq_true_eq]
      rw [ih ys hlen (fun b hb => hx b (by simp [hb]))
        (fun b hb => hy b (by simp [hb]))]

/-- Shape facts about a successfully generated identifier: sixteen bytes,
each a byte, whose big-endian value splits into the adjusted-millisecond
part weighted by 2^80 and an 80-bit remainder built from the random
fields. -/
theorem timestamp_to_uuidv7_bytes (dtUs counter : Nat) (r u : List Nat)
    (h : timestamp_to_uuidv7 dtUs counter r = some u) :
    u.length = 16 ∧ (∀ b ∈ u, b < 256) ∧
      fromBytesBE u =
        (dtUs / 1000 + counter % 1000) * 1208925819614629174706176 +
          (randA r * 18446744073709551616 + randB r) := by
  by_cases hadj : dtUs / 1000 + counter % 1000 < 2 ^ 48
  · rw [timestamp_to_uuidv7_eq _ _ _ hadj] at h
    have hu : u = natDigitsBE (dtUs / 1000 + counter % 1000) 6 ++
        natDigitsBE (randA r) 2 ++ natDigitsBE (randB r) 8 :=
      (Option.some.injEq _ _ ▸ h).symm
    subst hu
    refine ⟨by simp [natDigitsBE_length], ?_, ?_⟩
    · intro b hb
      simp only [List.mem_append] at hb
      rcases hb with (hb | hb) | hb
      · exact natDigitsBE_lt _ _ b hb
      · exact natDigitsBE_lt _ _ b hb
      · exact natDigitsBE_lt _ _ b hb
    · rw [List.append_assoc, fromBytesBE_append, fromBytesBE_append]
      have h6 : dtUs / 1000 + counter % 1000 < 256 ^ 6 := by
        have h48 : (2 : Nat) ^ 48 = 256 ^ 6 := by norm_num
        omega
      have h2 : randA r < 256 ^ 2 := by
        have := randA_lt r
        omega
      have h8 : randB r < 256 ^ 8 := by
        have h64 : (256 : Nat) ^ 8 = 18446744073709551616 := by norm_num
        have := randB_lt r
        omega
      rw [fromBytesBE_natDigitsBE _ _ h6, fromBytesBE_natDigitsBE _ _ h2,
        fromBytesBE_natDigitsBE _ _ h8]
      simp [natDigitsBE_length, List.length_append]
  · rw [timestamp_to_uuidv7_none _ _ _ hadj] at h
    exact absurd h (by simp)

/-- Strict ordering of generated identifiers follows strict ordering of the
adjusted millisecond values, whatever bytes the random source returned. -/
theorem timestamp_to_uuidv7_lt (dt1 c1 dt2 c2 : Nat) (r1 r2 u1 u2 : List Nat)
    (h1 : timestamp_to_uuidv7 dt1 c1 r1 = some u1)
    (h2 : timestamp_to_uuidv7 dt2 c2 r2 = some u2)
    (hlt : dt1 / 1000 + c1 % 1000 < dt2 / 1000 + c2 % 1000) :
    bytesLt u1 u2 = true := by
  obtain ⟨hl1, hb1, hv1⟩ := timestamp_to_uuidv7_bytes _ _ _ _ h1
  obtain ⟨hl2, hb2, hv2⟩ := timestamp_to_uuidv7_bytes _ _ _ _ h2
  rw [bytesLt_iff_fromBytesBE u1 u2 (by rw [hl1, hl2]) hb1 hb2, hv1, hv2]
  have hs1 : randA r1 * 18446744073709551616 + randB r1 <
      1208925819614629174706176 := by
    have ha := randA_lt r1
    have hb := randB_lt r1
    omega
  have hs2 : randA r2 * 18446744073709551616 + randB r2 <
      1208925819614629174706176 := by
    have ha := randA_lt r2
    have hb := randB_lt r2
    omega
  exact (lex_digit_lt _ _ _ _ _ hs1 hs2).mpr (Or.inl hlt)

/-- Counter-tracking state machine of the migration loop
(`migrate_public_ids`, lines 127-134): `last` is `last_timestamp` (a
Python datetime is always truthy, so `if last_timestamp and created_at ==
last_timestamp` tests `last_timestamp is not None` and equality), `c` is
`counter`.  Returns the counter assigned to each record in order. -/
def countersFrom : Option Nat → Nat → List Nat → List Nat
  | _, _, [] => []
  | some last, c, t :: ts =>
    if t = last then (c + 1) :: countersFrom (some last) (c + 1) ts
    else 0 :: countersFrom (some t) 0 ts
  | none, _, t :: ts => 0 :: countersFrom (some t) 0 ts

/-- The counters the driver assigns to a list of record timestamps,
starting from the initial state `last_timestamp = None`, `counter = 0`. -/
def assignedCounters (ts : List Nat) : List Nat := countersFrom none 0 ts

/-- Counter value the loop assigns to the next record. -/
def nextCounter : Option Nat → Nat → Nat → Nat
  | some last, c, t => if t = last then c + 1 else 0
  | none, _, _ => 0

/-- The counter characterization of the claim, written from the spec's
words: each record's counter is the number of immediately preceding
consecutive records holding an identical timestamp (`pre` is the reversed
list of already processed timestamps). -/
def specCounters : List Nat → List Nat → List Nat
  | _, [] => []
  | pre, t :: ts => (pre.takeWhile (fun x => x == t)).length ::
      specCounters (t :: pre) ts

theorem countersFrom_cons (last : Option Nat) (c t : Nat) (ts : List Nat) :
    countersFrom last c (t :: ts) =
      nextCounter last c t :: countersFrom (some t) (nextCounter last c t) ts := by
  match last with
  | none => rfl
  | some l =>
    by_cases h : t = l
    · subst h
      simp [countersFrom, nextCounter]
    · simp [countersFrom, nextCounter, h]

theorem countersFrom_length (ts : List Nat) :
    ∀ (last : Option Nat) (c : Nat), (countersFrom last c ts).length = ts.length := by
  induction ts with
  | nil => intro last c; cases last <;> rfl
  | cons t ts ih =>
    intro last c
    rw [countersFrom_cons]
    simp [ih]

theorem countersFrom_spec (rest : List Nat) :
    ∀ (p : Nat) (ps : List Nat),
      countersFrom (some p) ((ps.takeWhile (fun x => x == p)).length) rest =
        specCounters (p :: ps) rest := by
  induction rest with
  | nil => intro p ps; rfl
  | cons t ts ih =>
    intro p ps
    by_cases h : t = p
    · subst h
      rw [countersFrom_cons]
      have harg : ((t :: ps).takeWhile fun x => x == t).length =
          (ps.takeWhile fun x => x == t).length + 1 := by
        simp [List.takeWhile_cons]
      have hn : nextCounter (some t)
          ((ps.takeWhile fun x => x == t).length) t =
          (ps.takeWhile fun x => x == t).length + 1 := by
        simp [nextCounter]
      rw [hn]
      have htail := ih t (t :: ps)
      rw [harg] at htail
      rw [htail]
      simp only [specCounters]
      rw [harg]
    · rw [countersFrom_cons]
      have hpt : (p == t) = false := beq_eq_false_iff_ne.mpr (Ne.symm h)
      have harg : ((p :: ps).takeWhile fun x => x == t).length = 0 := by
        simp [List.takeWhile_cons, hpt]
      have hn : nextCounter (some p)
          ((ps.takeWhile fun x => x == p).length) t = 0 := by
        simp [nextCounter, h]
      rw [hn]
      have htail := ih t (p :: ps)
      rw [harg] at htail
      rw [htail]
      simp only [specCounters]
      rw [harg]

theorem assignedCounters_spec (ts : List Nat) :
    assignedCounters ts = specCounters [] ts := by
  cases ts with
  | nil => rfl
  | cons t rest =>
    show countersFrom none 0 (t :: rest) = specCounters [] (t :: rest)
    simp only [countersFrom, specCounters, List.takeWhile_nil,
      List.length_nil]
    have := countersFrom_spec rest t []
    simpa [List.takeWhile] using this

theorem countersFrom_step (ts : List Nat) :
    ∀ (last : Option Nat) (c i : Nat), i + 1 < ts.length →
      (countersFrom last c ts).getD (i + 1) 0 =
        if ts.getD (i + 1) 0 = ts.getD i 0
        then (countersFrom last c ts).getD i 0 + 1 else 0 := by
  induction ts with
  | nil => intro last c i h; simp at h
  | cons t1 rest ih =>
    intro last c i h
    match rest, h with
    | t2 :: rest2, h =>
      rw [countersFrom_cons]
      match i with
      | 0 =>
        rw [countersFrom_cons]
        simp [nextCounter]
      | i' + 1 =>
        simp only [List.getD_cons_succ]
        exact ih (some t1) (nextCounter last c t1) i'
          (by simpa using Nat.lt_of_succ_lt_succ h)

/-- A row of the `group_messages` table as the script sees it: primary key,
`created_at` (microseconds since epoch) and the `public_id` column
(`none` models SQL NULL; a value is the sixteen identifier bytes). -/
structure MsgRow where
  id : Nat
  created_at : Nat
  public_id : Option (List Nat)
deriving DecidableEq

/-- Comparator of the fetch query `ORDER BY created_at ASC, id ASC`. -/
def msgLE (a b : MsgRow) : Bool :=
  decide (a.created_at < b.created_at) ||
    (decide (a.created_at = b.created_at) && decide (a.id ≤ b.id))

/-- One pass of the generation loop of `migrate_public_ids`
(lines 124-138): walks the fetched `(id, created_at)` rows carrying
`last_timestamp`, `counter` and the position `k` in the injected random
stream, producing the `updates` list of `(new_public_id, msg_id)` pairs.
`none` models an exception escaping the loop (an `OverflowError` from
`timestamp_to_uuidv7`). -/
def genUpdates (rand : Nat → List Nat) :
    Option Nat → Nat → Nat → List (Nat × Nat) → Option (List (List Nat × Nat))
  | _, _, _, [] => some []
  | last, c, k, m :: ms =>
    match timestamp_to_uuidv7 m.2 (nextCounter last c m.2) (rand k) with
    | none => none
    | some u =>
      match genUpdates rand (some m.2) (nextCounter last c m.2) (k + 1) ms with
      | none => none
      | some rest => some ((u, m.1) :: rest)

/-- Effect of `UPDATE group_messages SET public_id = %s WHERE id = %s` for
one `(new_public_id, msg_id)` pair on the (transaction-local) table. -/
def applyUpdate (db : List MsgRow) (u : List Nat × Nat) : List MsgRow :=
  db.map fun m => if m.id = u.2 then { m with public_id := some u.1 } else m

/-- Helper for `chunksOf`: the first argument is fuel (instantiated with
the list length, enough because every step drops at least one element for
a positive slice size). -/
def chunksOfAux : Nat → Nat → List (List Nat × Nat) →
    List (List (List Nat × Nat))
  | 0, _, _ => []
  | _, _, [] => []
  | fuel + 1, bs, x :: l =>
    if bs = 0 then []
    else (x :: l).take bs :: chunksOfAux fuel bs ((x :: l).drop bs)

/-- Consecutive slices of size `bs`, as produced by
`range(0, len(updates), batch_size)` with `updates[i:i + batch_size]`
(for a positive `batch_size`; the model returns no slices for size 0,
where the Python `range` call would raise). -/
def chunksOf (bs : Nat) (l : List (List Nat × Nat)) :
    List (List (List Nat × Nat)) :=
  chunksOfAux l.length bs l

/-- The batched update loop inside the transaction: `orig` is the
committed table contents, `cur` the transaction-local working copy,
`failAt` tells which executed batch raises (the injected failure of the
claim).  A raise rolls back to `orig` and re-raises (second component
`true`); finishing all batches commits the working copy. -/
def runBatches (orig : List MsgRow) (failAt : Nat → Bool) :
    List MsgRow → Nat → List (List (List Nat × Nat)) → List MsgRow × Bool
  | cur, _, [] => (cur, false)
  | cur, i, b :: rest =>
    if failAt i then (orig, true)
    else runBatches orig failAt (b.foldl applyUpdate cur) (i + 1) rest

/-- Outcome of one run of the script: the table contents after the run,
the `[DRY RUN]` preview lines printed (at most ten, as in the source), and
whether the run re-raised an exception after rolling back. -/
structure RunResult where
  db : List MsgRow
  preview : List (List Nat × Nat)
  raised : Bool
deriving DecidableEq

/-- Embedding of `migrate_public_ids(batch_size, dry_run)`
(lines 87-208): count, early return on an empty table, fetch ordered by
`(created_at, id)`, generate updates, preview-and-return on `dry_run`,
otherwise execute the batches inside one transaction and commit, rolling
back and re-raising on any exception. -/
def migrate_public_ids (db : List MsgRow) (rand : Nat → List Nat)
    (batch_size : Nat) (dry_run : Bool) (failAt : Nat → Bool) : RunResult :=
  let msgs := (db.mergeSort msgLE).map fun m => (m.id, m.created_at)
  if msgs.length = 0 then ⟨db, [], false⟩
  else
    match genUpdates rand none 0 0 msgs with
    | none => ⟨db, [], true⟩
    | some updates =>
      if dry_run then ⟨db, updates.take 10, false⟩
      else
        let r := runBatches db failAt db 0 (chunksOf batch_size updates)
        ⟨r.1, [], r.2⟩

theorem genUpdates_length (rand : Nat → List Nat) (msgs : List (Nat × Nat)) :
    ∀ (last : Option Nat) (c k : Nat) (us : List (List Nat × Nat)),
      genUpdates rand last c k msgs = some us → us.length = msgs.length := by
  induction msgs with
  | nil =>
    intro last c k us h
    simp only [genUpdates, Option.some.injEq] at h
    subst h
    rfl
  | cons m ms ih =>
    intro last c k us h
    simp only [genUpdates] at h
    rcases hu : timestamp_to_uuidv7 m.2 (nextCounter last c m.2) (rand k) with
      _ | u
    · rw [hu] at h; exact absurd h (by simp)
    · rw [hu] at h
      rcases hrest : genUpdates rand (some m.2) (nextCounter last c m.2)
          (k + 1) ms with _ | rest
      · rw [hrest] at h; exact absurd h (by simp)
      · rw [hrest] at h
        simp only [Option.some.injEq] at h
        subst h
        simp [ih _ _ _ _ hrest]

theorem runBatches_fail (orig : List MsgRow) (failAt : Nat → Bool) :
    ∀ (chunks : List (List (List Nat × Nat))) (cur : List MsgRow) (i0 : Nat),
      (∃ j, j < chunks.length ∧ failAt (i0 + j) = true) →
      runBatches orig failAt cur i0 chunks = (orig, true) := by
  intro chunks
  induction chunks with
  | nil =>
    intro cur i0 h
    obtain ⟨j, hj, _⟩ := h
    simp at hj
  | cons b rest ih =>
    intro cur i0 h
    by_cases hf : failAt i0 = true
    · simp [runBatches, hf]
    · obtain ⟨j, hj, hjf⟩ := h
      match j with
      | 0 => exact absurd (by simpa using hjf) hf
      | j' + 1 =>
        simp only [runBatches, hf, Bool.false_eq_true, if_false]
        exact ih _ (i0 + 1) ⟨j', by simpa using hj, by
          have : i0 + 1 + j' = i0 + (j' + 1) := by omega
          rw [this]
          exact hjf⟩

/-- C1 (counterexample): the claim fails as stated.  With t1 at the epoch
and t2 exactly one millisecond later, counters c1 = 999 and c2 = 0 are
valid, yet for the all-zero random draw the identifier generated from
(t1, 999) is byte-wise greater, not less: the counter skew pushes t1's
48-bit timestamp field to 999 while t2's is 1. -/
theorem uuidv7_cross_timestamp_order_counterexample :
    1000 / 1000 = (0 : Nat) / 1000 + 1 ∧
    timestamp_to_uuidv7 0 999 (List.replicate 10 0) =
      some [0, 0, 0, 0, 3, 231, 112, 0, 128, 0, 0, 0, 0, 0, 0, 0] ∧
    timestamp_to_uuidv7 1000 0 (List.replicate 10 0) =
      some [0, 0, 0, 0, 0, 1, 112, 0, 128, 0, 0, 0, 0, 0, 0, 0] ∧
    bytesLt [0, 0, 0, 0, 3, 231, 112, 0, 128, 0, 0, 0, 0, 0, 0, 0]
      [0, 0, 0, 0, 0, 1, 112, 0, 128, 0, 0, 0, 0, 0, 0, 0] = false ∧
    bytesLt [0, 0, 0, 0, 0, 1, 112, 0, 128, 0, 0, 0, 0, 0, 0, 0]
      [0, 0, 0, 0, 3, 231, 112, 0, 128, 0, 0, 0, 0, 0, 0, 0] = true := by
  decide

/-- C1 (amended): whenever the adjusted millisecond value of the first
call, ms(t1) + (c1 mod 1000), is strictly below that of the second,
ms(t2) + (c2 mod 1000) — in particular whenever t2 is at least 1000 ms
after t1, whatever the valid counters — the first identifier is strictly
less under byte-wise comparison, for every choice of random bytes. -/
theorem uuidv7_cross_timestamp_order (dt1 c1 dt2 c2 : Nat)
    (r1 r2 u1 u2 : List Nat)
    (hadj : dt1 / 1000 + c1 % 1000 < dt2 / 1000 + c2 % 1000)
    (h1 : timestamp_to_uuidv7 dt1 c1 r1 = some u1)
    (h2 : timestamp_to_uuidv7 dt2 c2 r2 = some u2) :
    bytesLt u1 u2 = true :=
  timestamp_to_uuidv7_lt dt1 c1 dt2 c2 r1 r2 u1 u2 h1 h2 hadj

theorem uuidv7_cross_timestamp_order_witness :
    bytesLt [0, 0, 0, 0, 0, 0, 112, 0, 128, 0, 0, 0, 0, 0, 0, 0]
      [0, 0, 0, 0, 3, 232, 112, 0, 128, 0, 0, 0, 0, 0, 0, 0] = true :=
  uuidv7_cross_timestamp_order 0 0 1000000 0
    (List.replicate 10 0) (List.replicate 10 0)
    [0, 0, 0, 0, 0, 0, 112, 0, 128, 0, 0, 0, 0, 0, 0, 0]
    [0, 0, 0, 0, 3, 232, 112, 0, 128, 0, 0, 0, 0, 0, 0, 0]
    (by decide) (by decide) (by decide)

/-- C2: for a fixed timestamp and counters taken in increasing order
within 0..999, the generated identifiers are strictly increasing under
byte-wise comparison, for every choice of random bytes in each call. -/
theorem uuidv7_same_timestamp_counter_order (dtUs c1 c2 : Nat)
    (r1 r2 u1 u2 : List Nat) (hc : c1 < c2) (hc999 : c2 ≤ 999)
    (h1 : timestamp_to_uuidv7 dtUs c1 r1 = some u1)
    (h2 : timestamp_to_uuidv7 dtUs c2 r2 = some u2) :
    bytesLt u1 u2 = true := by
  apply timestamp_to_uuidv7_lt dtUs c1 dtUs c2 r1 r2 u1 u2 h1 h2
  have e1 : c1 % 1000 = c1 := Nat.mod_eq_of_lt (by omega)
  have e2 : c2 % 1000 = c2 := Nat.mod_eq_of_lt (by omega)
  omega

theorem uuidv7_same_timestamp_counter_order_witness :
    bytesLt [0, 0, 0, 0, 0, 0, 112, 0, 128, 0, 0, 0, 0, 0, 0, 0]
      [0, 0, 0, 0, 0, 1, 112, 0, 128, 0, 0, 0, 0, 0, 0, 0] = true :=
  uuidv7_same_timestamp_counter_order 0 0 1
    (List.replicate 10 0) (List.replicate 10 0)
    [0, 0, 0, 0, 0, 0, 112, 0, 128, 0, 0, 0, 0, 0, 0, 0]
    [0, 0, 0, 0, 0, 1, 112, 0, 128, 0, 0, 0, 0, 0, 0, 0]
    (by decide) (by decide) (by decide) (by decide)

/-- C3: every identifier the generator returns has version field (high
nibble of byte 6, bits 48-51) equal to 7 and variant field (top two bits
of byte 8, bits 64-65) equal to binary 10, whatever the ten random bytes
were. -/
theorem uuidv7_version_variant (dtUs c : Nat) (r u : List Nat)
    (h : timestamp_to_uuidv7 dtUs c r = some u) :
    uuidVersion u = 7 ∧ uuidVariant u = 2 := by
  by_cases hadj : dtUs / 1000 + c % 1000 < 2 ^ 48
  · rw [timestamp_to_uuidv7_eq _ _ _ hadj] at h
    have hu : u = natDigitsBE (dtUs / 1000 + c % 1000) 6 ++
        natDigitsBE (randA r) 2 ++ natDigitsBE (randB r) 8 :=
      (Option.some.injEq _ _ ▸ h).symm
    have hA := randA_eq r
    have hB := randB_eq r
    have hma : fromBytesBE (r.take 2) % 4096 < 4096 :=
      Nat.mod_lt _ (by norm_num)
    have hmb : fromBytesBE ((r.drop 2).take 8) % 4611686018427387904 <
        4611686018427387904 := Nat.mod_lt _ (by norm_num)
    subst hu
    constructor
    · have hbyte : (natDigitsBE (dtUs / 1000 + c % 1000) 6 ++
          natDigitsBE (randA r) 2 ++ natDigitsBE (randB r) 8).getD 6 0 =
          randA r / 256 % 256 := by
        simp [natDigitsBE]
      rw [uuidVersion, hbyte, hA]
      omega
    · have hbyte : (natDigitsBE (dtUs / 1000 + c % 1000) 6 ++
          natDigitsBE (randA r) 2 ++ natDigitsBE (randB r) 8).getD 8 0 =
          randB r / 256 / 256 / 256 / 256 / 256 / 256 / 256 % 256 := by
        simp [natDigitsBE]
      rw [uuidVariant, hbyte, hB]
      omega
  · rw [timestamp_to_uuidv7_none _ _ _ hadj] at h
    exact absurd h (by simp)

theorem uuidv7_version_variant_witness :
    uuidVersion [0, 0, 0, 0, 0, 0, 112, 0, 128, 0, 0, 0, 0, 0, 0, 0] = 7 ∧
    uuidVariant [0, 0, 0, 0, 0, 0, 112, 0, 128, 0, 0, 0, 0, 0, 0, 0] = 2 :=
  uuidv7_version_variant 0 0 (List.replicate 10 0)
    [0, 0, 0, 0, 0, 0, 112, 0, 128, 0, 0, 0, 0, 0, 0, 0] (by decide)

/-- C4: decoding the first six bytes of a generated identifier as a
big-endian integer recovers the adjusted millisecond value,
ms(t) + (counter mod 1000), exactly. -/
theorem uuidv7_timestamp_roundtrip (dtUs c : Nat) (r u : List Nat)
    (h : timestamp_to_uuidv7 dtUs c r = some u) :
    fromBytesBE (u.take 6) = dtUs / 1000 + c % 1000 := by
  by_cases hadj : dtUs / 1000 + c % 1000 < 2 ^ 48
  · rw [timestamp_to_uuidv7_eq _ _ _ hadj] at h
    have hu : u = natDigitsBE (dtUs / 1000 + c % 1000) 6 ++
        natDigitsBE (randA r) 2 ++ natDigitsBE (randB r) 8 :=
      (Option.some.injEq _ _ ▸ h).symm
    subst hu
    rw [List.append_assoc, List.take_left' (natDigitsBE_length _ _)]
    apply fromBytesBE_natDigitsBE
    have h48 : (2 : Nat) ^ 48 = 256 ^ 6 := by norm_num
    omega
  · rw [timestamp_to_uuidv7_none _ _ _ hadj] at h
    exact absurd h (by simp)

theorem uuidv7_timestamp_roundtrip_witness :
    fromBytesBE (([0, 0, 0, 0, 3, 231, 112, 0, 128, 0, 0, 0, 0, 0, 0,
      0] : List Nat).take 6) = 2500 / 1000 + 2997 % 1000 :=
  uuidv7_timestamp_roundtrip 2500 2997 (List.replicate 10 0)
    [0, 0, 0, 0, 3, 231, 112, 0, 128, 0, 0, 0, 0, 0, 0, 0] (by decide)

/-- C5: for a counter of at least 1000 the 48-bit timestamp field equals
the one produced by the counter reduced mod 1000 (whatever random bytes
each call draws); in particular counter 1000 yields the same adjusted
millisecond value as counter 0. -/
theorem uuidv7_counter_wraparound (dtUs c : Nat) (r1 r2 : List Nat)
    (_hc : 1000 ≤ c) :
    (timestamp_to_uuidv7 dtUs c r1).map (List.take 6) =
      (timestamp_to_uuidv7 dtUs (c % 1000) r2).map (List.take 6) ∧
    dtUs / 1000 + 1000 % 1000 = dtUs / 1000 + 0 % 1000 := by
  refine ⟨?_, by norm_num⟩
  have hmod : c % 1000 % 1000 = c % 1000 := by omega
  by_cases hadj : dtUs / 1000 + c % 1000 < 2 ^ 48
  · rw [timestamp_to_uuidv7_eq _ _ _ hadj,
      timestamp_to_uuidv7_eq _ _ _ (by rw [hmod]; exact hadj), hmod]
    simp only [Option.map_some']
    rw [List.append_assoc, List.append_assoc,
      List.take_left' (natDigitsBE_length _ _),
      List.take_left' (natDigitsBE_length _ _)]
  · rw [timestamp_to_uuidv7_none _ _ _ hadj,
      timestamp_to_uuidv7_none _ _ _ (by rw [hmod]; exact hadj)]

theorem uuidv7_counter_wraparound_witness :
    (timestamp_to_uuidv7 0 1000 (List.replicate 10 0)).map (List.take 6) =
      (timestamp_to_uuidv7 0 (1000 % 1000)
        (List.replicate 10 255)).map (List.take 6) ∧
    (0 : Nat) / 1000 + 1000 % 1000 = 0 / 1000 + 0 % 1000 :=
  uuidv7_counter_wraparound 0 1000 (List.replicate 10 0)
    (List.replicate 10 255) (by decide)

/-- C6: whenever the adjusted millisecond count is below 2^48 (it is
non-negative by construction), the generator returns normally — the
overflow branch of the six-byte conversion is unreachable, for every
counter and every random draw. -/
theorem uuidv7_no_overflow (dtUs c : Nat) (r : List Nat)
    (h : dtUs / 1000 + c % 1000 < 2 ^ 48) :
    (timestamp_to_uuidv7 dtUs c r).isSome = true :=
  (timestamp_to_uuidv7_isSome_iff dtUs c r).mpr h

theorem uuidv7_no_overflow_witness :
    (timestamp_to_uuidv7 1700000000000000 123
      (List.replicate 10 204)).isSome = true :=
  uuidv7_no_overflow 1700000000000000 123 (List.replicate 10 204)
    (by norm_num)

/-- C7: iterating the fetched records in sorted order, the driver assigns
counter 0 whenever the timestamp differs from the previous record's and
previous-counter-plus-one whenever they are equal; equivalently, each
record's counter is the number of immediately preceding consecutive
records with an identical timestamp. -/
theorem migrate_counter_assignment (ts : List Nat) :
    assignedCounters ts = specCounters [] ts ∧
    (0 < ts.length → (assignedCounters ts).getD 0 0 = 0) ∧
    (∀ i : Nat, i + 1 < ts.length →
      (assignedCounters ts).getD (i + 1) 0 =
        if ts.getD (i + 1) 0 = ts.getD i 0
        then (assignedCounters ts).getD i 0 + 1 else 0) := by
  refine ⟨assignedCounters_spec ts, ?_, ?_⟩
  · intro h
    match ts, h with
    | t :: rest, _ => rfl
  · intro i h
    exact countersFrom_step ts none 0 i h

theorem migrate_counter_assignment_witness :
    assignedCounters [5, 5, 7] = specCounters [] [5, 5, 7] ∧
    (assignedCounters [5, 5, 7]).getD 0 0 = 0 ∧
    (assignedCounters [5, 5, 7]).getD 1 0 = 1 ∧
    (assignedCounters [5, 5, 7]).getD 2 0 = 0 := by
  have h := migrate_counter_assignment [5, 5, 7]
  refine ⟨h.1, h.2.1 (by decide), ?_, ?_⟩
  · rw [h.2.2 0 (by decide)]
    decide
  · rw [h.2.2 1 (by decide)]
    decide

/-- Identical adjusted millisecond values give identical 48-bit timestamp
fields, whatever random bytes each call draws. -/
theorem timestamp_to_uuidv7_take6 (dt1 c1 dt2 c2 : Nat) (r1 r2 : List Nat)
    (h : dt1 / 1000 + c1 % 1000 = dt2 / 1000 + c2 % 1000) :
    (timestamp_to_uuidv7 dt1 c1 r1).map (List.take 6) =
      (timestamp_to_uuidv7 dt2 c2 r2).map (List.take 6) := by
  by_cases hadj : dt1 / 1000 + c1 % 1000 < 2 ^ 48
  · rw [timestamp_to_uuidv7_eq _ _ _ hadj,
      timestamp_to_uuidv7_eq _ _ _ (h ▸ hadj)]
    simp only [Option.map_some']
    rw [List.append_assoc, List.append_assoc,
      List.take_left' (natDigitsBE_length _ _),
      List.take_left' (natDigitsBE_length _ _), h]
  · rw [timestamp_to_uuidv7_none _ _ _ hadj,
      timestamp_to_uuidv7_none _ _ _ (h ▸ hadj)]

/-- C10 (counterexample): the claim fails as stated.  Take record
timestamps 0µs, 0µs, 1µs: the second and third records are consecutive,
unequal as datetime values, and truncate to the same millisecond; the
driver does reset the counter to 0 for the third record, but the second
record carries counter 1, so the two identifiers' 48-bit timestamp
fields are 1 and 0 — not identical. -/
theorem counter_reset_same_ms_counterexample :
    ([0, 0, 1] : List Nat).getD 1 0 ≠ ([0, 0, 1] : List Nat).getD 2 0 ∧
    ([0, 0, 1] : List Nat).getD 1 0 / 1000 =
      ([0, 0, 1] : List Nat).getD 2 0 / 1000 ∧
    (assignedCounters [0, 0, 1]).getD 2 0 = 0 ∧
    (timestamp_to_uuidv7 (([0, 0, 1] : List Nat).getD 1 0)
        ((assignedCounters [0, 0, 1]).getD 1 0)
        (List.replicate 10 0)).map (List.take 6) ≠
      (timestamp_to_uuidv7 (([0, 0, 1] : List Nat).getD 2 0)
        ((assignedCounters [0, 0, 1]).getD 2 0)
        (List.replicate 10 0)).map (List.take 6) := by
  decide

/-- C10 (amended): if two consecutive records of the sorted input have
datetimes that are unequal but truncate to the same millisecond, the
driver resets the counter to 0 for the second record; when moreover the
first record's counter is congruent to 0 mod 1000, both identifiers carry
identical 48-bit timestamp fields and their relative byte-wise order is
decided by the remaining ten (random-derived) bytes alone: counter
disambiguation keys on exact timestamp equality, not on same-millisecond
equality. -/
theorem counter_reset_same_ms (ts : List Nat) (i : Nat) (r1 r2 : List Nat)
    (hlen : i + 1 < ts.length)
    (hne : ts.getD (i + 1) 0 ≠ ts.getD i 0)
    (hms : ts.getD (i + 1) 0 / 1000 = ts.getD i 0 / 1000)
    (hc : (assignedCounters ts).getD i 0 % 1000 = 0) :
    (assignedCounters ts).getD (i + 1) 0 = 0 ∧
    (timestamp_to_uuidv7 (ts.getD i 0) ((assignedCounters ts).getD i 0)
        r1).map (List.take 6) =
      (timestamp_to_uuidv7 (ts.getD (i + 1) 0)
        ((assignedCounters ts).getD (i + 1) 0) r2).map (List.take 6) ∧
    (∀ u1 u2 : List Nat,
      timestamp_to_uuidv7 (ts.getD i 0) ((assignedCounters ts).getD i 0)
        r1 = some u1 →
      timestamp_to_uuidv7 (ts.getD (i + 1) 0)
        ((assignedCounters ts).getD (i + 1) 0) r2 = some u2 →
      bytesLt u1 u2 = bytesLt (u1.drop 6) (u2.drop 6)) := by
  have hreset : (assignedCounters ts).getD (i + 1) 0 = 0 := by
    show (countersFrom none 0 ts).getD (i + 1) 0 = 0
    rw [countersFrom_step ts none 0 i hlen, if_neg hne]
  have hadj : ts.getD i 0 / 1000 + (assignedCounters ts).getD i 0 % 1000 =
      ts.getD (i + 1) 0 / 1000 +
        (assignedCounters ts).getD (i + 1) 0 % 1000 := by
    rw [hreset, hc, hms]
  refine ⟨hreset, timestamp_to_uuidv7_take6 _ _ _ _ r1 r2 hadj, ?_⟩
  intro u1 u2 h1 h2
  have hs1 : ts.getD i 0 / 1000 + (assignedCounters ts).getD i 0 % 1000 <
      2 ^ 48 := by
    by_contra hcon
    rw [timestamp_to_uuidv7_none _ _ _ hcon] at h1
    exact absurd h1 (by simp)
  have hs2 := hadj ▸ hs1
  rw [timestamp_to_uuidv7_eq _ _ _ hs1] at h1
  rw [timestamp_to_uuidv7_eq _ _ _ hs2] at h2
  have hu1 : u1 = natDigitsBE (ts.getD i 0 / 1000 +
      (assignedCounters ts).getD i 0 % 1000) 6 ++
      natDigitsBE (randA r1) 2 ++ natDigitsBE (randB r1) 8 :=
    (Option.some.injEq _ _ ▸ h1).symm
  have hu2 : u2 = natDigitsBE (ts.getD (i + 1) 0 / 1000 +
      (assignedCounters ts).getD (i + 1) 0 % 1000) 6 ++
      natDigitsBE (randA r2) 2 ++ natDigitsBE (randB r2) 8 :=
    (Option.some.injEq _ _ ▸ h2).symm
  subst hu1
  subst hu2
  rw [List.append_assoc, List.append_assoc, ← hadj,
    List.drop_left' (natDigitsBE_length _ _),
    List.drop_left' (natDigitsBE_length _ _),
    bytesLt_append_same]

theorem counter_reset_same_ms_witness :
    (assignedCounters [0, 1]).getD 1 0 = 0 ∧
    (timestamp_to_uuidv7 (([0, 1] : List Nat).getD 0 0)
        ((assignedCounters [0, 1]).getD 0 0)
        (List.replicate 10 0)).map (List.take 6) =
      (timestamp_to_uuidv7 (([0, 1] : List Nat).getD 1 0)
        ((assignedCounters [0, 1]).getD 1 0)
        (List.replicate 10 255)).map (List.take 6) ∧
    (∀ u1 u2 : List Nat,
      timestamp_to_uuidv7 (([0, 1] : List Nat).getD 0 0)
        ((assignedCounters [0, 1]).getD 0 0)
        (List.replicate 10 0) = some u1 →
      timestamp_to_uuidv7 (([0, 1] : List Nat).getD 1 0)
        ((assignedCounters [0, 1]).getD 1 0)
        (List.replicate 10 255) = some u2 →
      bytesLt u1 u2 = bytesLt (u1.drop 6) (u2.drop 6)) :=
  counter_reset_same_ms [0, 1] 0 (List.replicate 10 0)
    (List.replicate 10 255) (by decide) (by decide) (by decide) (by decide)

/-- In dry-run mode the run returns right after computing the updates:
the table is untouched and the preview shows the first ten updates. -/
theorem migrate_dry_run_eq (db : List MsgRow) (rand : Nat → List Nat)
    (batch_size : Nat) (failAt : Nat → Bool) (updates : List (List Nat × Nat))
    (hgen : genUpdates rand none 0 0
        ((db.mergeSort msgLE).map fun m => (m.id, m.created_at)) =
      some updates) :
    migrate_public_ids db rand batch_size true failAt =
      ⟨db, updates.take 10, false⟩ := by
  unfold migrate_public_ids
  by_cases hempty :
      ((db.mergeSort msgLE).map fun m => (m.id, m.created_at)).length = 0
  · have hnil : ((db.mergeSort msgLE).map fun m => (m.id, m.created_at)) = [] :=
      List.length_eq_zero.mp hempty
    rw [hnil] at hgen
    have hup : updates = [] := by
      simp only [genUpdates, Option.some.injEq] at hgen
      exact hgen.symm
    subst hup
    simp [hnil]
  · simp only [if_neg hempty]
    rw [hgen]
    simp

/-- C8: with dry_run set, the driver computes an identifier for every
fetched record and returns before executing any UPDATE, so every stored
row is unchanged; for a five-record input, all five computed identifiers
appear in the preview output. -/
theorem dry_run_frame (db : List MsgRow) (rand : Nat → List Nat)
    (batch_size : Nat) (failAt : Nat → Bool) (updates : List (List Nat × Nat))
    (hgen : genUpdates rand none 0 0
        ((db.mergeSort msgLE).map fun m => (m.id, m.created_at)) =
      some updates) :
    (migrate_public_ids db rand batch_size true failAt).db = db ∧
    (migrate_public_ids db rand batch_size true failAt).raised = false ∧
    updates.length = db.length ∧
    (db.length = 5 →
      (migrate_public_ids db rand batch_size true failAt).preview =
        updates) := by
  have heq := migrate_dry_run_eq db rand batch_size failAt updates hgen
  have hlen : updates.length = db.length := by
    have h1 := genUpdates_length rand _ none 0 0 updates hgen
    simpa using h1
  refine ⟨by rw [heq], by rw [heq], hlen, ?_⟩
  intro h5
  rw [heq]
  exact List.take_of_length_le (by omega)

theorem dry_run_frame_witness :
    (migrate_public_ids
        [⟨1, 0, none⟩, ⟨2, 0, none⟩, ⟨3, 500000, none⟩,
          ⟨4, 1000000, none⟩, ⟨5, 1000000, none⟩]
        (fun _ => List.replicate 10 0) 1000 true fun _ => false).db =
      [⟨1, 0, none⟩, ⟨2, 0, none⟩, ⟨3, 500000, none⟩,
        ⟨4, 1000000, none⟩, ⟨5, 1000000, none⟩] ∧
    (migrate_public_ids
        [⟨1, 0, none⟩, ⟨2, 0, none⟩, ⟨3, 500000, none⟩,
          ⟨4, 1000000, none⟩, ⟨5, 1000000, none⟩]
        (fun _ => List.replicate 10 0) 1000 true fun _ => false).raised =
      false ∧
    ([([0, 0, 0, 0, 0, 0, 112, 0, 128, 0, 0, 0, 0, 0, 0, 0], 1),
      ([0, 0, 0, 0, 0, 1, 112, 0, 128, 0, 0, 0, 0, 0, 0, 0], 2),
      ([0, 0, 0, 0, 1, 244, 112, 0, 128, 0, 0, 0, 0, 0, 0, 0], 3),
      ([0, 0, 0, 0, 3, 232, 112, 0, 128, 0, 0, 0, 0, 0, 0, 0], 4),
      ([0, 0, 0, 0, 3, 233, 112, 0, 128, 0, 0, 0, 0, 0, 0, 0], 5)] :
        List (List Nat × Nat)).length =
      ([⟨1, 0, none⟩, ⟨2, 0, none⟩, ⟨3, 500000, none⟩,
        ⟨4, 1000000, none⟩, ⟨5, 1000000, none⟩] : List MsgRow).length ∧
    (([⟨1, 0, none⟩, ⟨2, 0, none⟩, ⟨3, 500000, none⟩,
        ⟨4, 1000000, none⟩, ⟨5, 1000000, none⟩] : List MsgRow).length = 5 →
      (migrate_public_ids
          [⟨1, 0, none⟩, ⟨2, 0, none⟩, ⟨3, 500000, none⟩,
            ⟨4, 1000000, none⟩, ⟨5, 1000000, none⟩]
          (fun _ => List.replicate 10 0) 1000 true fun _ => false).preview =
        [([0, 0, 0, 0, 0, 0, 112, 0, 128, 0, 0, 0, 0, 0, 0, 0], 1),
          ([0, 0, 0, 0, 0, 1, 112, 0, 128, 0, 0, 0, 0, 0, 0, 0], 2),
          ([0, 0, 0, 0, 1, 244, 112, 0, 128, 0, 0, 0, 0, 0, 0, 0], 3),
          ([0, 0, 0, 0, 3, 232, 112, 0, 128, 0, 0, 0, 0, 0, 0, 0], 4),
          ([0, 0, 0, 0, 3, 233, 112, 0, 128, 0, 0, 0, 0, 0, 0, 0], 5)]) :=
  dry_run_frame
    [⟨1, 0, none⟩, ⟨2, 0, none⟩, ⟨3, 500000, none⟩,
      ⟨4, 1000000, none⟩, ⟨5, 1000000, none⟩]
    (fun _ => List.replicate 10 0) 1000 (fun _ => false)
    [([0, 0, 0, 0, 0, 0, 112, 0, 128, 0, 0, 0, 0, 0, 0, 0], 1),
      ([0, 0, 0, 0, 0, 1, 112, 0, 128, 0, 0, 0, 0, 0, 0, 0], 2),
      ([0, 0, 0, 0, 1, 244, 112, 0, 128, 0, 0, 0, 0, 0, 0, 0], 3),
      ([0, 0, 0, 0, 3, 232, 112, 0, 128, 0, 0, 0, 0, 0, 0, 0], 4),
      ([0, 0, 0, 0, 3, 233, 112, 0, 128, 0, 0, 0, 0, 0, 0, 0], 5)]
    (by rw [List.mergeSort_of_sorted (by decide)]; decide)

/-- A raise in any batch before the commit point makes the run roll back
to the original table and re-raise. -/
theorem migrate_fail_eq (db : List MsgRow) (rand : Nat → List Nat)
    (batch_size : Nat) (failAt : Nat → Bool) (updates : List (List Nat × Nat))
    (hgen : genUpdates rand none 0 0
        ((db.mergeSort msgLE).map fun m => (m.id, m.created_at)) =
      some updates)
    (hfail : ∃ j, j < (chunksOf batch_size updates).length ∧
      failAt j = true) :
    migrate_public_ids db rand batch_size false failAt = ⟨db, [], true⟩ := by
  by_cases hempty :
      ((db.mergeSort msgLE).map fun m => (m.id, m.created_at)).length = 0
  · have hnil : ((db.mergeSort msgLE).map fun m => (m.id, m.created_at)) = [] :=
      List.length_eq_zero.mp hempty
    rw [hnil] at hgen
    have hup : updates = [] := by
      simp only [genUpdates, Option.some.injEq] at hgen
      exact hgen.symm
    subst hup
    obtain ⟨j, hj, _⟩ := hfail
    simp [chunksOf, chunksOfAux] at hj
  · unfold migrate_public_ids
    simp only [if_neg hempty]
    rw [hgen]
    obtain ⟨j, hj, hjf⟩ := hfail
    have hrun : runBatches db failAt db 0 (chunksOf batch_size updates) =
        (db, true) :=
      runBatches_fail db failAt (chunksOf batch_size updates) db 0
        ⟨j, hj, by simpa using hjf⟩
    simp [hrun]

/-- C9: if any batch update raises before the commit point, the whole
transaction is rolled back and the exception is re-raised: the stored
rows are exactly the original ones, with no partial update from earlier
successfully executed batches. -/
theorem midbatch_failure_rollback (db : List MsgRow) (rand : Nat → List Nat)
    (batch_size : Nat) (failAt : Nat → Bool) (updates : List (List Nat × Nat))
    (hgen : genUpdates rand none 0 0
        ((db.mergeSort msgLE).map fun m => (m.id, m.created_at)) =
      some updates)
    (hfail : ∃ j, j < (chunksOf batch_size updates).length ∧
      failAt j = true) :
    (migrate_public_ids db rand batch_size false failAt).db = db ∧
    (migrate_public_ids db rand batch_size false failAt).raised = true := by
  have heq := migrate_fail_eq db rand batch_size failAt updates hgen hfail
  exact ⟨by rw [heq], by rw [heq]⟩

theorem midbatch_failure_rollback_witness :
    (migrate_public_ids [⟨1, 0, none⟩, ⟨2, 1000, none⟩]
        (fun _ => List.replicate 10 0) 1 false fun i => decide (i = 1)).db =
      [⟨1, 0, none⟩, ⟨2, 1000, none⟩] ∧
    (migrate_public_ids [⟨1, 0, none⟩, ⟨2, 1000, none⟩]
        (fun _ => List.replicate 10 0) 1 false
        fun i => decide (i = 1)).raised = true :=
  midbatch_failure_rollback [⟨1, 0, none⟩, ⟨2, 1000, none⟩]
    (fun _ => List.replicate 10 0) 1 (fun i => decide (i = 1))
    [([0, 0, 0, 0, 0, 0, 112, 0, 128, 0, 0, 0, 0, 0, 0, 0], 1),
      ([0, 0, 0, 0, 0, 1, 112, 0, 128, 0, 0, 0, 0, 0, 0, 0], 2)]
    (by rw [List.mergeSort_of_sorted (by decide)]; decide)
    ⟨1, by decide, by decide⟩
